import Mathlib

set_option maxRecDepth 100000

/-!
Verification development for the cross-chain intent solver (erc7683).

Byte strings are modelled as `List Nat` (each element one byte). Hex-string
operations of the source (`slice`, `size`, `startsWith`, `concat`) become the
corresponding list operations; the case-insensitive comparison of hex strings
performed with `toLowerCase` is exact byte equality at this level, since hex
digit case carries no information about the underlying bytes.

Source functions are embedded one-to-one; fallible TypeScript functions
(those that can `throw`) become `Except String` computations whose error
strings repeat the message thrown by the source.
-/

/-- Big-endian byte encoding of `n` on `len` bytes (high bits beyond the
width are discarded, as in a fixed-width word). -/
def beBytes (len n : Nat) : List Nat :=
  match len with
  | 0 => []
  | k + 1 => beBytes k (n / 256) ++ [n % 256]

/-- Value of a big-endian byte string, as an unsigned integer.  This is the
embedding of viem's `hexToNumber`/`hexToBigInt` applied to a byte blob; note
that `hexToNumber` performs no safe-integer range check (it is
`Number(hexToBigInt(hex))`). -/
def natFromBe (bs : List Nat) : Nat :=
  bs.foldl (fun acc b => acc * 256 + b) 0

/-- A 32-byte big-endian word. -/
def word32 (n : Nat) : List Nat := beBytes 32 n

/-- `AbiEncodedValue` (src/src/abis.ts / abi-wrap.ts): a discriminated wrapper
over a byte string distinguishing static vs dynamic ABI encoding. -/
inductive AbiShape where
  | Static : AbiShape
  | Dynamic : AbiShape
deriving DecidableEq, Repr

structure AbiEncodedValue where
  shape : AbiShape
  encoding : List Nat
deriving DecidableEq, Repr

/-- The constant `DYN_PREFIX` of abi-wrap.ts: three 32-byte words
`0x40, 0x60, 0x00`. -/
def dynPrefixBytes : List Nat := word32 0x40 ++ word32 0x60 ++ word32 0

/-- The constant `ZERO` of abi-wrap.ts: a 32-byte zero word. -/
def zeroWordBytes : List Nat := word32 0

/-- `decodeAbiWrappedValue` (abi-wrap.ts lines 64-86).  If the blob starts
with `DYN_PREFIX`, strip it (viem's `slice(encoded, 96)` throws a
`SliceOffsetOutOfBounds` error when the start offset exceeds `size - 1`,
i.e. when the blob is exactly the 96-byte prefix).  Otherwise the blob must
be a static block `[32-byte size][encoding][32-byte zero padding]` whose
length header equals `size(encoded) - 64`. -/
def decodeAbiWrappedValue (encoded : List Nat) : Except String AbiEncodedValue :=
  if dynPrefixBytes.isPrefixOf encoded then
    if encoded.length ≤ 96 then
      .error "slice offset out of bounds"
    else
      .ok ⟨.Dynamic, encoded.drop 96⟩
  else
    let length := natFromBe (encoded.take 32)
    let expectedLength := length + 64
    if encoded.length ≠ expectedLength then
      .error "Invalid static argument length"
    else if (encoded.drop (expectedLength - 32)).take 32 ≠ zeroWordBytes then
      .error "Missing static argument end marker"
    else
      .ok ⟨.Static, (encoded.drop 32).take (expectedLength - 64)⟩

/-- Standard ABI encoding of the outer two-parameter tuple `(string "", T)`
for a *static* type `T` whose encoding is `enc` (a whole number of words):
heads are `[offset of the string tail][enc]` where the offset is
`32 + enc.length`, and the tail of `""` is a single zero word (its length).
This is what viem's `encodeAbiParameters([{type: 'string'}, {type}], ["", v])`
produces in `abiEncode` (abi-wrap.ts lines 49-54) when `type` is static. -/
def encodeOuterStatic (enc : List Nat) : List Nat :=
  word32 (32 + enc.length) ++ enc ++ word32 0

/-- Standard ABI encoding of the outer tuple `(string "", T)` for a *dynamic*
type `T` whose (tail) encoding is `enc`: heads are the two offsets
`0x40` (string tail) and `0x60` (value tail), then the zero length word of
`""`, then `enc`.  This is `encodeAbiParameters([{type: 'string'}, {type}],
["", v])` when `type` is dynamic. -/
def encodeOuterDynamic (enc : List Nat) : List Nat :=
  word32 0x40 ++ word32 0x60 ++ word32 0 ++ enc

/-- `abiEncode(value, type)` (abi-wrap.ts lines 49-54) for a static
elementary type such as `uint256`: the outer tuple encoding is fed straight
into `decodeAbiWrappedValue`. For `uint256` the inner encoding is the 32-byte
big-endian word of the value. -/
def abiEncodeUint (n : Nat) : Except String AbiEncodedValue :=
  decodeAbiWrappedValue (encodeOuterStatic (word32 n))

/-- `abiEncode(value, 'address')`: the inner encoding is the address
left-padded to 32 bytes. -/
def abiEncodeAddress (addr : List Nat) : Except String AbiEncodedValue :=
  decodeAbiWrappedValue (encodeOuterStatic (List.replicate (32 - addr.length) 0 ++ addr))

theorem abiEncodeUint_five_errors :
    abiEncodeUint 5 = .error "Invalid static argument length" := by rfl

theorem decode_outer_dynamic_sample :
    decodeAbiWrappedValue (encodeOuterDynamic (word32 2)) =
      .ok ⟨.Dynamic, word32 2⟩ := by rfl

/-! ## Plan data model (src/src/types.ts) -/

/-- `Account`: a chain-qualified address. -/
structure Account where
  address : List Nat
  chainId : Nat
deriving DecidableEq, Repr

/-- `Formula` (types.ts lines 106-116). -/
inductive Formula where
  | Constant (value : Nat)
  | Variable (varIdx : Nat)
deriving DecidableEq, Repr

/-- `Argument` (types.ts lines 185-195). -/
inductive Argument where
  | Variable (varIdx : Nat)
  | AbiEncodedValue (value : AbiEncodedValue)
deriving DecidableEq, Repr

/-- The `policy` field of `Attribute_RevertPolicy` (types.ts line 68):
`'drop' | 'ignore'` (`'retry'` is reserved in a comment and not
representable in the current code). -/
inductive PolicyKind where
  | drop
  | ignore
deriving DecidableEq, Repr

/-- `Attribute_RevertPolicy` (types.ts lines 66-70). -/
structure RevertPolicyEntry where
  policy : PolicyKind
  expectedReason : List Nat
deriving DecidableEq, Repr

/-- `Attribute_SpendsERC20` (types.ts lines 53-59). -/
structure SpendsERC20Entry where
  token : Account
  amountFormula : Formula
  spender : Account
  receiver : Account
deriving DecidableEq, Repr

/-- `Payment_ERC20` (types.ts lines 120-127). -/
structure PaymentERC20 where
  token : Account
  sender : Account
  amountFormula : Formula
  recipientVarIdx : Nat
  estimatedDelaySeconds : Nat
deriving DecidableEq, Repr

/-- `Attributes` (types.ts lines 27-40), restricted to the fields read by the
functions modelled here (`SpendsERC20`, `SpendsEstimatedGas`, `RevertPolicy`
and the three receipt-output attributes, each carrying its variable index). -/
structure Attributes where
  SpendsERC20 : List SpendsERC20Entry
  SpendsEstimatedGas : Option Formula
  RevertPolicy : List RevertPolicyEntry
  WithTimestamp : Option Nat
  WithBlockNumber : Option Nat
  WithEffectiveGasPrice : Option Nat
deriving DecidableEq, Repr

/-- `Step` (types.ts lines 16-25); the single variant is `Call`. -/
structure Step where
  target : Account
  selector : List Nat
  arguments : List Argument
  attributes : Attributes
  payments : List PaymentERC20
deriving DecidableEq, Repr

/-- `VariableRole` (types.ts lines 129-178). -/
inductive VariableRole where
  | PaymentRecipient (chainId : Nat)
  | PaymentChain
  | Pricing
  | TxOutput
  | Witness (kind : String) (data : List Nat) (witnessVars : List Nat)
  | Query (target : Account) (selector : List Nat) (arguments : List Argument)
      (blockNumber : Nat)
  | QueryEvents
deriving DecidableEq, Repr

/-- `ResolvedOrder` (types.ts lines 4-9); assumptions are not needed by any
modelled function.  The `variables` field is renamed `varRoles` because
`variables` is reserved in Lean. -/
structure ResolvedOrder where
  steps : List Step
  varRoles : List VariableRole
  payments : List PaymentERC20
deriving DecidableEq, Repr

/-! ## VariableEnv state (src/src/env.ts lines 7-17)

The environment holds one cache slot per variable: an optional stored
outcome and a tick, plus a monotonically increasing counter.  The value of a
slot is the settled outcome of the promise stored by the source — a rejected
promise is a stored `Except.error` (a failed `recompute` is cached exactly
like a successful one, with its tick).  The cache is modelled as a total
function from indices to slots, matching a JavaScript array that can be
written at any index; unwritten slots are `⟨none, -1⟩` (the constructor
initialises every slot's tick to `-1`). -/

structure Slot where
  value? : Option (Except String AbiEncodedValue)
  tick : Int

structure EnvState where
  roles : List VariableRole
  cache : Nat → Slot
  tick : Int

/-- The constructor `new VariableEnv(ctx, roles)`. -/
def initEnv (roles : List VariableRole) : EnvState :=
  { roles := roles, cache := fun _ => ⟨none, -1⟩, tick := 0 }

/-- Write slot `i` with outcome `v` at the current counter, then advance the
counter (`this.cache[i] = { value, tick: this.tick++ }`). -/
def writeSlot (st : EnvState) (i : Nat) (v : Except String AbiEncodedValue) :
    EnvState :=
  { st with
    cache := fun k => if k = i then ⟨some v, st.tick⟩ else st.cache k
    tick := st.tick + 1 }

/-- `VariableEnv.set` (env.ts lines 19-33): only `Pricing`, `TxOutput` and
`Witness` roles may be set; any other role throws. -/
def setE (st : EnvState) (i : Nat) (v : AbiEncodedValue) : Except String EnvState :=
  match st.roles.get? i with
  | some .Pricing | some .TxOutput | some (.Witness _ _ _) =>
      .ok (writeSlot st i (.ok v))
  | _ => .error "variable cannot be set"

/-- The `TransactionReceipt` fields read by the filler. -/
structure Receipt where
  blockNumber : Nat
  effectiveGasPrice : Nat
  status : Bool
deriving DecidableEq, Repr

/-- `applyTxOutputs` (src/src/fill.ts lines 165-184): on a successful
receipt, set the `WithBlockNumber` variable to `abiEncode(receipt.blockNumber,
'uint256')`, the `WithTimestamp` variable to the wrapped timestamp of the
receipt's block (`getBlock` is the function `blockTs` from block numbers to
timestamps), and the `WithEffectiveGasPrice` variable to the wrapped
effective gas price.  Each `abiEncode` argument is evaluated before the
`env.set` call, so an `abiEncode` throw aborts the whole extraction. -/
def applyTxOutputsF (st : EnvState) (blockTs : Nat → Nat) (receipt : Receipt)
    (attrs : Attributes) : Except String EnvState := do
  let st ←
    match attrs.WithBlockNumber with
    | some v => do
        let w ← abiEncodeUint receipt.blockNumber
        setE st v w
    | none => pure st
  let st ←
    match attrs.WithTimestamp with
    | some v => do
        let w ← abiEncodeUint (blockTs receipt.blockNumber)
        setE st v w
    | none => pure st
  match attrs.WithEffectiveGasPrice with
  | some v => do
      let w ← abiEncodeUint receipt.effectiveGasPrice
      setE st v w
  | none => pure st

/-! ## Basic byte lemmas -/

theorem beBytes_length (len n : Nat) : (beBytes len n).length = len := by
  induction len generalizing n with
  | zero => rfl
  | succ k ih => simp [beBytes, ih]

theorem word32_length (n : Nat) : (word32 n).length = 32 :=
  beBytes_length 32 n

/-- The outer-tuple encoding of a single-word static value: the first head
word is the string-tail offset 64, the second is the value word, and the
string tail is a zero word. -/
theorem encodeOuterStatic_word (n : Nat) :
    encodeOuterStatic (word32 n) = word32 64 ++ (word32 n ++ word32 0) := by
  simp [encodeOuterStatic, word32_length]

/-- `abiEncode` never succeeds on a single-word static type: the wire blob
`[0x40][word][0x00]` produced by the outer tuple `(string "", T)` fails
`decodeAbiWrappedValue` for every value of the word — the static branch
rejects it because the header word (the string offset 64) does not match
`size(encoded) - 64 = 32`, and the value word 0x60 instead collides with the
dynamic prefix and dies on the out-of-bounds `slice(encoded, 96)`. -/
theorem decode_encodeOuterStatic_word_isError (n : Nat) :
    (decodeAbiWrappedValue (encodeOuterStatic (word32 n))).isOk = false := by
  rw [encodeOuterStatic_word]
  unfold decodeAbiWrappedValue
  by_cases h : dynPrefixBytes.isPrefixOf (word32 64 ++ (word32 n ++ word32 0))
  · rw [if_pos h]
    have hlen : (word32 64 ++ (word32 n ++ word32 0)).length = 96 := by
      simp [word32_length]
    rw [if_pos (by omega)]
    rfl
  · rw [if_neg h]
    have htake : (word32 64 ++ (word32 n ++ word32 0)).take 32 = word32 64 := by
      have := List.take_left (word32 64) (word32 n ++ word32 0)
      rwa [word32_length] at this
    have hval : natFromBe ((word32 64 ++ (word32 n ++ word32 0)).take 32) = 64 := by
      rw [htake]; rfl
    have hlen : (word32 64 ++ (word32 n ++ word32 0)).length = 96 := by
      simp [word32_length]
    simp only [hval, hlen]
    rw [if_pos (by omega)]
    rfl

/-- C1 — Codec round-trip.  The claim says `decodeAbiWrappedValue` applied to
the outer two-parameter tuple encoding of `("", v)` succeeds and returns the
wrapper of `v` for both Static and Dynamic shapes.  The code violates the
Static half: for `v = 5 : uint256` the blob is `[0x40][5][0x00]` and the
static branch throws `Invalid static argument length` (header 64 vs required
`size - 64 = 32`), instead of producing `Static (word32 5)`.  The Dynamic
half does hold, as the second conjunct shows on a sample `bytes` value. -/
theorem C1_static_roundtrip_code_bug :
    decodeAbiWrappedValue (encodeOuterStatic (word32 5)) =
      .error "Invalid static argument length" ∧
    decodeAbiWrappedValue (encodeOuterDynamic (word32 2 ++ word32 0xab)) =
      .ok ⟨.Dynamic, word32 2 ++ word32 0xab⟩ := by
  exact ⟨by rfl, by rfl⟩

/-- C2 — Receipt extraction.  The claim (spec scenario S6) says that after a
successful receipt `{blockNumber: 1000, effectiveGasPrice: 7}` with block
timestamp 12345, the env holds `abiWrap(1000, uint256)`,
`abiWrap(12345, uint256)` and `abiWrap(7, uint256)` in the three named
`TxOutput` variables.  In the code, `applyTxOutputs` calls
`abiEncode(receipt.blockNumber, 'uint256')`, which always throws
`Invalid static argument length` (see C1), so the extraction aborts before
any variable is set and the env never holds the wrapped values. -/
theorem C2_receipt_extraction_code_bug :
    applyTxOutputsF (initEnv [.TxOutput, .TxOutput, .TxOutput])
      (fun _ => 12345) ⟨1000, 7, true⟩
      ⟨[], none, [], some 1, some 0, some 2⟩ =
    .error "Invalid static argument length" := by
  rfl

/-! ## Preflight revert-policy check (src/src/loop.ts lines 23-63) -/

/-- JavaScript `Array.prototype.findIndex`: index of the first element
satisfying the predicate, or none. -/
def firstIdx? (p : α → Bool) : List α → Option Nat
  | [] => none
  | a :: l => if p a then some 0 else (firstIdx? p l).map (· + 1)

/-- JavaScript `Array.prototype.findLastIndex`: index of the last element
satisfying the predicate, or none. -/
def lastIdx? (p : α → Bool) : List α → Option Nat
  | [] => none
  | a :: l =>
    match lastIdx? p l with
    | some n => some (n + 1)
    | none => if p a then some 0 else none

/-- The `-1` convention of the JavaScript index functions. -/
def idxToInt : Option Nat → Int
  | some n => n
  | none => -1

/-- A step counts as a fill step when `step.attributes.SpendsERC20.length > 0`
(loop.ts lines 52-54). -/
def isFillStep (s : Step) : Bool :=
  0 < s.attributes.SpendsERC20.length

/-- A step counts as a drop step when some entry of its revert policy has
policy `drop` (loop.ts lines 56-58). -/
def isDropStep (s : Step) : Bool :=
  s.attributes.RevertPolicy.any (fun p => p.policy = .drop)

/-- `hasValidRevertPolicies` (loop.ts lines 51-63):
`findLastIndex(drop) <= findIndex(SpendsERC20)`, with `-1` for "not found". -/
def hasValidRevertPolicies (order : ResolvedOrder) : Bool :=
  idxToInt (lastIdx? isDropStep order.steps) ≤
    idxToInt (firstIdx? isFillStep order.steps)

/-- The revert-policy clause of `preflight` (loop.ts lines 24-26). -/
def preflightRevertPolicies (order : ResolvedOrder) : Except String Unit :=
  if hasValidRevertPolicies order then .ok () else .error "Invalid RevertPolicy order"

theorem firstIdx?_eq_some {p : α → Bool} {l : List α} {n : Nat}
    (h : firstIdx? p l = some n) :
    ∃ a, l[n]? = some a ∧ p a = true := by
  induction l generalizing n with
  | nil => simp [firstIdx?] at h
  | cons b l ih =>
    by_cases hb : p b
    · simp [firstIdx?, hb] at h
      subst h
      exact ⟨b, by simp, hb⟩
    · simp [firstIdx?, hb] at h
      obtain ⟨m, hm, hmn⟩ := h
      obtain ⟨a, ha, hpa⟩ := ih hm
      exact ⟨a, by simpa [← hmn] using ha, hpa⟩

theorem firstIdx?_min {p : α → Bool} {l : List α} {n : Nat}
    (h : firstIdx? p l = some n) {m : Nat} {a : α}
    (hm : l[m]? = some a) (hpa : p a = true) : n ≤ m := by
  induction l generalizing n m with
  | nil => simp at hm
  | cons b l ih =>
    by_cases hb : p b
    · simp [firstIdx?, hb] at h
      omega
    · simp [firstIdx?, hb] at h
      obtain ⟨k, hk, hkn⟩ := h
      match m with
      | 0 =>
        simp at hm
        subst hm
        exact absurd hpa (by simp [hb])
      | m' + 1 =>
        simp at hm
        have := ih hk hm
        omega

theorem firstIdx?_none {p : α → Bool} {l : List α}
    (h : firstIdx? p l = none) {m : Nat} {a : α}
    (hm : l[m]? = some a) : p a = false := by
  induction l generalizing m with
  | nil => simp at hm
  | cons b l ih =>
    by_cases hb : p b
    · simp [firstIdx?, hb] at h
    · simp [firstIdx?, hb] at h
      match m with
      | 0 => simp at hm; subst hm; simpa using hb
      | m' + 1 => simp at hm; exact ih h hm

theorem firstIdx?_isSome {p : α → Bool} {l : List α} {m : Nat} {a : α}
    (hm : l[m]? = some a) (hpa : p a = true) :
    ∃ n, firstIdx? p l = some n := by
  cases h : firstIdx? p l with
  | some n => exact ⟨n, rfl⟩
  | none => exact absurd (firstIdx?_none h hm) (by simp [hpa])

theorem lastIdx?_eq_some {p : α → Bool} {l : List α} {n : Nat}
    (h : lastIdx? p l = some n) :
    ∃ a, l[n]? = some a ∧ p a = true := by
  induction l generalizing n with
  | nil => simp [lastIdx?] at h
  | cons b l ih =>
    cases hl : lastIdx? p l with
    | some k =>
      simp [lastIdx?, hl] at h
      obtain ⟨a, ha, hpa⟩ := ih hl
      exact ⟨a, by simpa [← h] using ha, hpa⟩
    | none =>
      by_cases hb : p b
      · simp [lastIdx?, hl, hb] at h
        subst h
        exact ⟨b, by simp, hb⟩
      · simp [lastIdx?, hl, hb] at h

theorem lastIdx?_none' {p : α → Bool} {l : List α}
    (h : lastIdx? p l = none) {m : Nat} {a : α}
    (hm : l[m]? = some a) : p a = false := by
  induction l generalizing m with
  | nil => simp at hm
  | cons b l ih =>
    cases hl : lastIdx? p l with
    | some k => simp [lastIdx?, hl] at h
    | none =>
      by_cases hb : p b
      · simp [lastIdx?, hl, hb] at h
      · match m with
        | 0 => simp at hm; subst hm; simpa using hb
        | m' + 1 => simp at hm; exact ih hl hm

theorem lastIdx?_max {p : α → Bool} {l : List α} {n : Nat}
    (h : lastIdx? p l = some n) {m : Nat} {a : α}
    (hm : l[m]? = some a) (hpa : p a = true) : m ≤ n := by
  induction l generalizing n m with
  | nil => simp at hm
  | cons b l ih =>
    cases hl : lastIdx? p l with
    | some k =>
      simp [lastIdx?, hl] at h
      match m with
      | 0 => omega
      | m' + 1 =>
        simp at hm
        have := ih hl hm
        omega
    | none =>
      by_cases hb : p b
      · simp [lastIdx?, hl, hb] at h
        match m with
        | 0 => omega
        | m' + 1 =>
          simp at hm
          cases hl' : lastIdx? p l with
          | some k => exact absurd hl (by simp [hl'])
          | none => exact absurd (lastIdx?_none' hl' hm) (by simp [hpa])
      · simp [lastIdx?, hl, hb] at h

theorem lastIdx?_isSome {p : α → Bool} {l : List α} {m : Nat} {a : α}
    (hm : l[m]? = some a) (hpa : p a = true) :
    ∃ n, lastIdx? p l = some n := by
  cases h : lastIdx? p l with
  | some n => exact ⟨n, rfl⟩
  | none => exact absurd (lastIdx?_none' h hm) (by simp [hpa])

/-- A concrete plan with a single step whose revert policy contains `drop`
and with no `SpendsERC20` anywhere. -/
def c3Order : ResolvedOrder :=
  { steps := [{ target := ⟨[0xaa], 1⟩
                selector := [1, 2, 3, 4]
                arguments := []
                attributes :=
                  { SpendsERC20 := []
                    SpendsEstimatedGas := none
                    RevertPolicy := [⟨.drop, []⟩]
                    WithTimestamp := none
                    WithBlockNumber := none
                    WithEffectiveGasPrice := none }
                payments := [] }]
    varRoles := []
    payments := [] }

/-- C3 counterexample.  The claim states that when no step has `SpendsERC20`
the revert-policy order condition holds vacuously and the plan passes the
check.  On the code, `findIndex` yields `-1` when no step has `SpendsERC20`,
so a plan containing a `drop` step (index 0 here) and no `SpendsERC20` step
gives `lastDropIdx = 0 > -1 = firstFillIdx` and the plan is rejected. -/
theorem C3_vacuous_pass_counterexample :
    hasValidRevertPolicies c3Order = false ∧
    preflightRevertPolicies c3Order = .error "Invalid RevertPolicy order" ∧
    c3Order.steps.all (fun s => s.attributes.SpendsERC20.isEmpty) = true := by
  refine ⟨by rfl, by rfl, by rfl⟩

/-- C3 amended.  `preflight` rejects the plan with `Invalid RevertPolicy
order` exactly when `findLastIndex(has drop) > findIndex(has SpendsERC20)`
with `-1` for "absent"; equivalently, the plan passes the check iff (a) every
step with a `drop` revert policy comes no later than every step with
`SpendsERC20`, and (b) if some step has a `drop` revert policy then some step
has `SpendsERC20`.  In particular a plan with a `drop` step but no
`SpendsERC20` step is rejected — not accepted vacuously as the claim
states. -/
theorem C3_revert_policy_order_amended (order : ResolvedOrder) :
    hasValidRevertPolicies order = true ↔
      ((∀ (i j : Nat) (si sj : Step), order.steps[i]? = some si →
          order.steps[j]? = some sj →
          isDropStep si = true → isFillStep sj = true → i ≤ j) ∧
       ((∃ (i : Nat) (si : Step), order.steps[i]? = some si ∧ isDropStep si = true) →
          ∃ (j : Nat) (sj : Step), order.steps[j]? = some sj ∧ isFillStep sj = true)) := by
  unfold hasValidRevertPolicies
  cases hd : lastIdx? isDropStep order.steps with
  | none =>
    simp only [idxToInt]
    constructor
    · intro _
      refine ⟨?_, ?_⟩
      · intro i j si sj hi hj hdi hfj
        exact absurd (lastIdx?_none' hd hi) (by simp [hdi])
      · rintro ⟨i, si, hi, hdi⟩
        exact absurd (lastIdx?_none' hd hi) (by simp [hdi])
    · intro _
      cases hf : firstIdx? isFillStep order.steps <;> simp [idxToInt] <;> omega
  | some L =>
    cases hf : firstIdx? isFillStep order.steps with
    | none =>
      simp only [idxToInt]
      constructor
      · intro h
        exact absurd h (by simp; omega)
      · rintro ⟨_, hex⟩
        obtain ⟨a, ha, hpa⟩ := lastIdx?_eq_some hd
        obtain ⟨j, sj, hj, hfj⟩ := hex ⟨L, a, ha, hpa⟩
        exact absurd (firstIdx?_none hf hj) (by simp [hfj])
    | some F =>
      simp only [idxToInt]
      constructor
      · intro h
        have hLF : L ≤ F := by exact_mod_cast of_decide_eq_true h
        refine ⟨?_, ?_⟩
        · intro i j si sj hi hj hdi hfj
          have h1 : i ≤ L := lastIdx?_max hd hi hdi
          have h2 : F ≤ j := firstIdx?_min hf hj hfj
          omega
        · intro _
          obtain ⟨a, ha, hpa⟩ := firstIdx?_eq_some hf
          exact ⟨F, a, ha, hpa⟩
      · rintro ⟨hall, _⟩
        obtain ⟨a, ha, hpa⟩ := lastIdx?_eq_some hd
        obtain ⟨b, hb, hpb⟩ := firstIdx?_eq_some hf
        have : L ≤ F := hall L F a b ha hb hpa hpb
        exact decide_eq_true_eq.mpr (by exact_mod_cast this)

/-! ## Codec argument dispatch (resolve.ts) -/

/-- `toSafeNumber` (resolve.ts lines 226-232): converts a decoded `uint256`
to a host number, throwing when it exceeds the safe-integer range
`2^53 - 1`.  Used by every index-decoding path of the codec except
`decodeArgument`. -/
def toSafeNumber (value : Nat) : Except String Nat :=
  if value ≤ 2 ^ 53 - 1 then .ok value else .error "Number out of safe integer range"

/-- `decodeArgument` (resolve.ts lines 60-68): a 32-byte encoding is a
variable index decoded with viem's `hexToNumber` — which performs no range
check — while any other size is decoded as a wrapped ABI value. -/
def decodeArgument (encoded : List Nat) : Except String Argument :=
  if encoded.length = 32 then
    .ok (.Variable (natFromBe encoded))
  else
    match decodeAbiWrappedValue encoded with
    | .ok v => .ok (.AbiEncodedValue v)
    | .error e => .error e

/-- C4 — Out-of-range variable index.  The claim (and spec §4.1) says every
integer index transported as `uint256` — including the variable index carried
by a 32-byte `Argument` encoding — is rejected when it exceeds the host's
safe-integer range `2^53 - 1`.  `decodeArgument` instead decodes the 32-byte
big-endian encoding of `2^53` with `hexToNumber`, which has no safe-integer
check, and accepts it as `Variable{varIdx: 2^53}` (in JavaScript, with silent
precision loss above `2^53`); `toSafeNumber`, used by every other index
path of the codec, rejects the same value. -/
theorem C4_argument_index_no_range_check :
    decodeArgument (word32 (2 ^ 53)) = .ok (.Variable (2 ^ 53)) ∧
    toSafeNumber (2 ^ 53) = .error "Number out of safe integer range" := by
  refine ⟨?_, by rfl⟩
  have hlen : (word32 (2 ^ 53)).length = 32 := word32_length _
  have hval : natFromBe (word32 (2 ^ 53)) = 2 ^ 53 := by rfl
  unfold decodeArgument
  rw [if_pos hlen, hval]

/-! ## Fill state machine (src/src/fill.ts)

`executeStep` is modelled from the point where the step's chain interaction
happens; witness resolution and the sleep-until-timestamp scheduling that
precede it only prepare that interaction (the claims about reverts condition
on the call having been made and reverted).  The chain's behaviour for the
step is supplied as an oracle value:
- `simRevert d` — the pre-send simulation reverts with data `d`
  (fill.ts lines 43-48);
- `sent receipt resim` — the simulation passes, the transaction is sent and
  its receipt observed; when the receipt status is failure, `resim` is the
  revert data recovered by re-simulating at the receipt's block
  (fill.ts lines 50-72, `none` when the re-simulation does not revert). -/

inductive ChainOutcome where
  | simRevert (d : List Nat)
  | sent (receipt : Receipt) (resim : Option (List Nat))
deriving DecidableEq, Repr

/-- `getMatchingRevertPolicy` (fill.ts lines 142-145): the first
`RevertPolicy` entry whose `expectedReason` is a prefix of the revert data
(the source lowercases both hex strings; on bytes this is plain prefix). -/
def getMatchingRevertPolicy (step : Step) (revertData : List Nat) :
    Option PolicyKind :=
  (step.attributes.RevertPolicy.find?
    (fun p => p.expectedReason.isPrefixOf revertData)).map (·.policy)

/-- The revert-data dispatch of `executeStep` (fill.ts lines 75-84):
`drop` → stop returning false, `ignore` → continue, no match → fatal
`resolver error`. -/
def applyRevertPolicy (step : Step) (d : List Nat) (env : EnvState) :
    Except String (Bool × EnvState) :=
  match getMatchingRevertPolicy step d with
  | some .drop => .ok (false, env)
  | some .ignore => .ok (true, env)
  | none => .error "resolver error"

/-- `executeStep` (fill.ts lines 26-89) under a `ChainOutcome` oracle. -/
def executeStepF (step : Step) (oc : ChainOutcome) (blockTs : Nat → Nat)
    (env : EnvState) : Except String (Bool × EnvState) :=
  match oc with
  | .simRevert d => applyRevertPolicy step d env
  | .sent receipt resim =>
    if receipt.status then
      match applyTxOutputsF env blockTs receipt step.attributes with
      | .ok env' => .ok (true, env')
      | .error e => .error e
    else
      match resim with
      | some d => applyRevertPolicy step d env
      | none => .error "resolver error"

/-- The step loop of `fill` (fill.ts lines 12-24): execute steps in declared
order, stopping with `false` as soon as a step's outcome says so. -/
def fillF (steps : List (Step × ChainOutcome)) (blockTs : Nat → Nat)
    (env : EnvState) : Except String (Bool × EnvState) :=
  match steps with
  | [] => .ok (true, env)
  | (s, oc) :: rest =>
    match executeStepF s oc blockTs env with
    | .error e => .error e
    | .ok (true, env') => fillF rest blockTs env'
    | .ok (false, env') => .ok (false, env')

/-- C5 — Revert-policy dispatch.  For a step whose call reverts with data `d`
(either in the pre-send simulation or in the transaction itself, with `d`
recovered by the post-receipt re-simulation), `fill` selects the first
`RevertPolicy` entry whose `expectedReason` is a prefix of `d`: on `drop` it
returns `false` with no subsequent step executed (the result does not depend
on `rest`), on `ignore` it continues with the next step, and with no
matching entry it fails with the fatal `resolver error`.  The reserved
`retry` policy is not representable in the code's `RevertPolicy` type, so
the claim's retry clause is vacuous. -/
theorem C5_revert_policy_dispatch (step : Step) (d : List Nat)
    (rest : List (Step × ChainOutcome)) (blockTs : Nat → Nat) (env : EnvState)
    (receipt : Receipt) (hst : receipt.status = false) :
    (getMatchingRevertPolicy step d = some .drop →
       fillF ((step, .simRevert d) :: rest) blockTs env = .ok (false, env) ∧
       fillF ((step, .sent receipt (some d)) :: rest) blockTs env = .ok (false, env)) ∧
    (getMatchingRevertPolicy step d = some .ignore →
       fillF ((step, .simRevert d) :: rest) blockTs env = fillF rest blockTs env ∧
       fillF ((step, .sent receipt (some d)) :: rest) blockTs env = fillF rest blockTs env) ∧
    (getMatchingRevertPolicy step d = none →
       fillF ((step, .simRevert d) :: rest) blockTs env = .error "resolver error" ∧
       fillF ((step, .sent receipt (some d)) :: rest) blockTs env = .error "resolver error") := by
  refine ⟨?_, ?_, ?_⟩ <;> intro hmatch <;>
    constructor <;>
      simp [fillF, executeStepF, applyRevertPolicy, hmatch, hst]

/-- Concrete step for the C5 witness: revert policy
`[{drop, expectedReason: 0xDEAD}]` (spec scenario S5). -/
def c5Step : Step :=
  { target := ⟨[0xaa], 1⟩
    selector := [1, 2, 3, 4]
    arguments := []
    attributes :=
      { SpendsERC20 := []
        SpendsEstimatedGas := none
        RevertPolicy := [⟨.drop, [0xde, 0xad]⟩]
        WithTimestamp := none
        WithBlockNumber := none
        WithEffectiveGasPrice := none }
    payments := [] }

/-- A follower step with an empty revert policy: executing it on a revert
would raise `resolver error`, so the witness also shows the follower is never
executed. -/
def c5Follower : Step :=
  { c5Step with attributes := { c5Step.attributes with RevertPolicy := [] } }

/-- Witness for C5: step reverts with `0xDEADBEEF`, policy
`[{drop, 0xDEAD}]` matches, `fill` returns `false` and the follower step
(whose execution would be fatal) is not executed. -/
theorem C5_revert_policy_dispatch_witness :
    fillF [(c5Step, .simRevert [0xde, 0xad, 0xbe, 0xef]),
           (c5Follower, .simRevert [])] (fun _ => 0) (initEnv []) =
      .ok (false, initEnv []) :=
  (C5_revert_policy_dispatch c5Step [0xde, 0xad, 0xbe, 0xef]
    [(c5Follower, .simRevert [])] (fun _ => 0) (initEnv [])
    ⟨0, 0, false⟩ rfl).1 (by rfl) |>.1

/-- C10 — Empty expected reason matches every revert.  An entry whose
`expectedReason` is the empty byte string is a prefix of every revert data,
so when the first entry of a step's revert policy is `{drop, 0x}` every
revert of that step matches it and `fill` returns `false`, whatever the
revert data. -/
theorem C10_empty_reason_matches_all (step : Step) (d : List Nat)
    (rest : List (Step × ChainOutcome)) (blockTs : Nat → Nat) (env : EnvState)
    (tail : List RevertPolicyEntry)
    (hhead : step.attributes.RevertPolicy = ⟨.drop, []⟩ :: tail) :
    getMatchingRevertPolicy step d = some .drop ∧
    fillF ((step, .simRevert d) :: rest) blockTs env = .ok (false, env) := by
  have hm : getMatchingRevertPolicy step d = some .drop := by
    unfold getMatchingRevertPolicy
    rw [hhead]
    cases d <;> rfl
  exact ⟨hm, by simp [fillF, executeStepF, applyRevertPolicy, hm]⟩

/-- Witness for C10: a step whose only revert-policy entry is `{drop, 0x}`
dropped on an arbitrary revert `0x99c3`. -/
theorem C10_empty_reason_matches_all_witness :
    getMatchingRevertPolicy
        { c5Step with attributes := { c5Step.attributes with RevertPolicy := [⟨.drop, []⟩] } }
        [0x99, 0xc3] = some .drop ∧
    fillF [({ c5Step with attributes := { c5Step.attributes with RevertPolicy := [⟨.drop, []⟩] } },
            .simRevert [0x99, 0xc3])] (fun _ => 0) (initEnv []) =
      .ok (false, initEnv []) :=
  C10_empty_reason_matches_all _ [0x99, 0xc3] [] (fun _ => 0) (initEnv []) [] rfl

/-! ## Call builder (src/src/env.ts lines 149-173) -/

/-- Whether a wrapped value is Dynamic (`v.type === 'Dynamic'`). -/
def isDynVal (v : AbiEncodedValue) : Bool :=
  match v.shape with
  | .Dynamic => true
  | .Static => false

/-- The first loop of `abiEncodeFunctionCall` (env.ts lines 157-160): the
initial tail cursor `nextDynHead`, i.e. the total size of the heads. -/
def headsSizeF (vs : List AbiEncodedValue) : Nat :=
  vs.foldl (fun acc v => acc + if isDynVal v then 32 else v.encoding.length) 0

/-- The second loop of `abiEncodeFunctionCall` (env.ts lines 162-170),
threading the tail cursor: returns the list of head words and the list of
tail encodings. -/
def encodeLoop (vs : List AbiEncodedValue) (cursor : Nat) :
    List (List Nat) × List (List Nat) :=
  match vs with
  | [] => ([], [])
  | v :: rest =>
    if isDynVal v then
      let ht := encodeLoop rest (cursor + v.encoding.length)
      (word32 cursor :: ht.1, v.encoding :: ht.2)
    else
      let ht := encodeLoop rest cursor
      (v.encoding :: ht.1, ht.2)

/-- `abiEncodeFunctionCall` (env.ts lines 149-173):
`concat([selector, ...heads, ...tails])`, selector must be 4 bytes. -/
def abiEncodeFunctionCall (selector : List Nat) (vs : List AbiEncodedValue) :
    Except String (List Nat) :=
  if selector.length ≠ 4 then .error "Selector must be 4 bytes"
  else
    .ok (selector ++ (encodeLoop vs (headsSizeF vs)).1.flatten ++
      (encodeLoop vs (headsSizeF vs)).2.flatten)

/-- Total length of dynamic encodings among the first `k` values: the tail
space consumed before value `k`. -/
def dynLenBefore (vs : List AbiEncodedValue) (k : Nat) : Nat :=
  (((vs.take k).filter isDynVal).map (fun v => v.encoding.length)).sum

theorem encodeLoop_tails (vs : List AbiEncodedValue) (c : Nat) :
    (encodeLoop vs c).2 = (vs.filter isDynVal).map (fun v => v.encoding) := by
  induction vs generalizing c with
  | nil => rfl
  | cons v rest ih =>
    by_cases hv : isDynVal v <;> simp [encodeLoop, hv, ih]

theorem encodeLoop_heads_length (vs : List AbiEncodedValue) (c : Nat) :
    (encodeLoop vs c).1.length = vs.length := by
  induction vs generalizing c with
  | nil => rfl
  | cons v rest ih =>
    by_cases hv : isDynVal v <;> simp [encodeLoop, hv, ih]

theorem dynLenBefore_cons (w : AbiEncodedValue) (rest : List AbiEncodedValue)
    (k : Nat) :
    dynLenBefore (w :: rest) (k + 1) =
      (if isDynVal w then w.encoding.length else 0) + dynLenBefore rest k := by
  by_cases hw : isDynVal w <;>
    simp [dynLenBefore, List.filter_cons, hw]

theorem encodeLoop_heads_get (vs : List AbiEncodedValue) (c : Nat) (k : Nat)
    (v : AbiEncodedValue) (hk : vs[k]? = some v) :
    (encodeLoop vs c).1[k]? =
      some (if isDynVal v then word32 (c + dynLenBefore vs k)
            else v.encoding) := by
  induction vs generalizing c k with
  | nil => simp at hk
  | cons w rest ih =>
    match k with
    | 0 =>
      simp at hk
      cases hk
      by_cases hw : isDynVal v <;>
        simp [encodeLoop, hw, dynLenBefore]
    | k + 1 =>
      simp at hk
      have hrec := dynLenBefore_cons w rest k
      by_cases hw : isDynVal w
      · have hih := ih (c + w.encoding.length) k hk
        simp [encodeLoop, hw, hih, hrec, Nat.add_assoc]
      · have hih := ih c k hk
        simp [encodeLoop, hw, hih, hrec]

/-- C8 — Call-data layout.  With a 4-byte selector,
`abiEncodeFunctionCall` returns `selector ∥ heads ∥ tails` where the `k`-th
head is the value's encoding inline when it is Static and the 32-byte
big-endian offset `headsSize + (dynamic tail bytes already emitted)` when it
is Dynamic, the tails are the dynamic encodings in argument order, and the
first 4 bytes of the result are the selector; a selector that is not exactly
4 bytes raises `Selector must be 4 bytes`. -/
theorem C8_call_data_layout (selector : List Nat) (vs : List AbiEncodedValue) :
    (selector.length = 4 →
      ∃ heads : List (List Nat),
        abiEncodeFunctionCall selector vs =
          .ok (selector ++ heads.flatten ++
            ((vs.filter isDynVal).map (fun v => v.encoding)).flatten) ∧
        heads.length = vs.length ∧
        (∀ (k : Nat) (v : AbiEncodedValue), vs[k]? = some v →
          heads[k]? = some (if isDynVal v
            then word32 (headsSizeF vs + dynLenBefore vs k)
            else v.encoding)) ∧
        (selector ++ heads.flatten ++
            ((vs.filter isDynVal).map (fun v => v.encoding)).flatten).take 4 =
          selector) ∧
    (selector.length ≠ 4 →
      abiEncodeFunctionCall selector vs = .error "Selector must be 4 bytes") := by
  constructor
  · intro hsel
    refine ⟨(encodeLoop vs (headsSizeF vs)).1, ?_, ?_, ?_, ?_⟩
    · unfold abiEncodeFunctionCall
      rw [if_neg (by omega), encodeLoop_tails]
    · exact encodeLoop_heads_length vs (headsSizeF vs)
    · intro k v hk
      exact encodeLoop_heads_get vs (headsSizeF vs) k v hk
    · rw [List.append_assoc, List.take_append_of_le_length (by omega),
        List.take_of_length_le (by omega)]
  · intro hsel
    unfold abiEncodeFunctionCall
    rw [if_pos hsel]

/-- Witness for C8: selector `[1,2,3,4]` with one static word and one
dynamic value; and a 3-byte selector rejected. -/
theorem C8_call_data_layout_witness :
    (abiEncodeFunctionCall [1, 2, 3, 4] [⟨.Static, word32 7⟩, ⟨.Dynamic, word32 9⟩] =
      .ok ([1, 2, 3, 4] ++ (word32 7 ++ word32 64) ++ word32 9)) ∧
    (abiEncodeFunctionCall [1, 2, 3] [] = .error "Selector must be 4 bytes") := by
  constructor
  · obtain ⟨heads, hok, hlen, hget, htake⟩ :=
      (C8_call_data_layout [1, 2, 3, 4] [⟨.Static, word32 7⟩, ⟨.Dynamic, word32 9⟩]).1 rfl
    rw [hok]
    have h0 := hget 0 ⟨.Static, word32 7⟩ (by rfl)
    have h1 := hget 1 ⟨.Dynamic, word32 9⟩ (by rfl)
    have hsize : headsSizeF [⟨.Static, word32 7⟩, ⟨.Dynamic, word32 9⟩] = 64 := by
      simp [headsSizeF, isDynVal, word32_length]
    have hdlb : dynLenBefore [⟨AbiShape.Static, word32 7⟩, ⟨AbiShape.Dynamic, word32 9⟩] 1 = 0 := by
      simp [dynLenBefore, isDynVal]
    rw [hsize, hdlb] at h1
    simp [isDynVal] at h0 h1
    match heads, hlen with
    | [a, b], _ =>
      simp at h0 h1
      subst h0
      subst h1
      rfl
  · exact (C8_call_data_layout [1, 2, 3] []).2 (by simp)

/-! ## VariableEnv: freshness and get (src/src/env.ts lines 35-95)

`isFresh` recurses through `Query` dependencies; the source relies on the
resolver not creating dependency cycles (env.ts line 6) for termination.
The embedding adds an explicit fuel argument; `isFreshF` is monotone in the
fuel and, under the tick invariants maintained by the environment (all
present slots carry distinct ticks below the counter), it stabilises once
the fuel exceeds the counter, so `isFresh` evaluates it at fuel
`tick.toNat + 1`, which is exact on every reachable state. -/

/-- `VariableEnv.deps` (env.ts lines 86-95): the variable indices appearing
in a `Query` role's arguments; every other role has no dependencies. -/
def queryDeps (roles : List VariableRole) (j : Nat) : List Nat :=
  match roles.get? j with
  | some (.Query _ _ args _) =>
    args.filterMap (fun a =>
      match a with
      | .Variable v => some v
      | .AbiEncodedValue _ => none)
  | _ => []

/-- `VariableEnv.isFresh` (env.ts lines 72-84) with fuel: a slot is fresh iff
its value is present and every dependency has tick ≤ this slot's tick and is
itself fresh. -/
def isFreshF (st : EnvState) : Nat → Nat → Bool
  | 0, _ => false
  | f + 1, j =>
    (st.cache j).value?.isSome &&
      (queryDeps st.roles j).all (fun d =>
        decide ((st.cache d).tick ≤ (st.cache j).tick) && isFreshF st f d)

/-- Fuel that is exact on states satisfying the tick invariants. -/
def freshFuel (st : EnvState) : Nat := st.tick.toNat + 1

/-- `VariableEnv.isFresh` as used by `get`. -/
def isFresh (st : EnvState) (j : Nat) : Bool := isFreshF st (freshFuel st) j

/-- The context values and chain responses consulted by `recompute`
(env.ts lines 44-70): `ctx.paymentChain`, `ctx.paymentRecipient`, and the
`eth_call` response for each `Query` variable (the response is keyed by the
variable index; the request's call data, built from the argument values, is
part of the abstracted RPC round trip). -/
structure Ctx where
  paymentChain : Nat
  paymentRecipient : Nat → List Nat
  queryOracle : Nat → List Nat

/-- Result of a `get`: the settled outcome (a rejected promise is an
`error`), the updated environment, the indices recomputed (in cache-write
order), and an `ok` flag that is false iff the artificial fuel ran out
somewhere — runs of the actual unbounded recursion are exactly the runs with
`ok = true`. -/
structure GetRes where
  val : Except String AbiEncodedValue
  st : EnvState
  log : List Nat
  ok : Bool

/-- Result of resolving an argument list through `env.get` (the
`Promise.all` in `buildCallData`, env.ts lines 140-145): the first error if
any, the environment after all sub-gets (each argument's synchronous cache
write happens whether or not an earlier argument failed), the resolved
values of the successful gets in order, the combined recompute log, and the
combined fuel flag. -/
structure ArgsRes where
  err? : Option String
  st : EnvState
  vals : List AbiEncodedValue
  log : List Nat
  ok : Bool

/-- Resolve the arguments in order through `g` (which will be `getF` at one
lower fuel); literal arguments resolve to themselves. -/
def goArgs (g : EnvState → Nat → GetRes) : List Argument → EnvState → ArgsRes
  | [], st => ⟨none, st, [], [], true⟩
  | .Variable v :: rest, st =>
    let r := g st v
    let t := goArgs g rest r.st
    ⟨(match r.val with
      | .error s => some s
      | .ok _ => t.err?),
     t.st,
     (match r.val with
      | .error _ => []
      | .ok w => [w]) ++ t.vals,
     r.log ++ t.log, r.ok && t.ok⟩
  | .AbiEncodedValue w :: rest, st =>
    let t := goArgs g rest st
    { t with vals := w :: t.vals }

/-- `VariableEnv.get` (env.ts lines 35-42) together with `recompute`
(lines 44-70), under a `Ctx` oracle.  A fresh slot is served from the cache;
otherwise the slot is recomputed: the role's dependencies are resolved first
(their cache writes happen during the synchronous prefix of the async
`recompute` call, so they receive lower ticks), then the slot is written at
the current counter.  A failed recompute (unset `Pricing`/`TxOutput`/
`Witness`, the `QueryEvents` TODO, an out-of-bounds role, or a failed
dependency) is cached as a rejected promise, exactly like the source. -/
def getF (ctx : Ctx) (fuel : Nat) (st : EnvState) (i : Nat) : GetRes :=
  match fuel with
  | 0 => ⟨.error "out of fuel", st, [], false⟩
  | fuel + 1 =>
    if isFresh st i then
      ⟨((st.cache i).value?).getD (.error "missing value"), st, [], true⟩
    else
      match st.roles.get? i with
      | some .PaymentChain =>
        let v := abiEncodeUint ctx.paymentChain
        ⟨v, writeSlot st i v, [i], true⟩
      | some (.PaymentRecipient c) =>
        let v := abiEncodeAddress (ctx.paymentRecipient c)
        ⟨v, writeSlot st i v, [i], true⟩
      | some (.Query _ _ args _) =>
        let a := goArgs (fun st' k => getF ctx fuel st' k) args st
        let v := match a.err? with
          | some e => .error e
          | none => decodeAbiWrappedValue (ctx.queryOracle i)
        ⟨v, writeSlot a.st i v, a.log ++ [i], a.ok⟩
      | some .QueryEvents =>
        let v : Except String AbiEncodedValue := .error "TODO"
        ⟨v, writeSlot st i v, [i], true⟩
      | some .Pricing | some .TxOutput | some (.Witness _ _ _) =>
        let v : Except String AbiEncodedValue := .error "variable not set"
        ⟨v, writeSlot st i v, [i], true⟩
      | none =>
        let v : Except String AbiEncodedValue := .error "role out of bounds"
        ⟨v, writeSlot st i v, [i], true⟩

/-! ## Quoter (src/src/quote.ts) -/

/-- `envEval` (env.ts lines 175-189): a `Constant` formula is its value; a
`Variable` formula resolves through `env.get`, requires a `Static` value and
decodes it as `uint256` (viem reads the first 32-byte word and throws when
fewer bytes are available). -/
def envEvalF (ctx : Ctx) (fuel : Nat) (st : EnvState) :
    Formula → Except String Nat × EnvState
  | .Constant v => (.ok v, st)
  | .Variable idx =>
    let r := getF ctx fuel st idx
    match r.val with
    | .error e => (.error e, r.st)
    | .ok v =>
      match v.shape with
      | .Dynamic => (.error "Dynamic value used in formula", r.st)
      | .Static =>
        if v.encoding.length < 32 then (.error "data size too small", r.st)
        else (.ok (natFromBe (v.encoding.take 32)), r.st)

/-- A flow before evaluation (`AssetFlow<Formula>`, quote.ts lines 62-77):
a token flow carries its formula and sign; a gas flow carries the optional
`SpendsEstimatedGas` formula and the step to simulate, with implicit
sign `-1`. -/
inductive FlowFormula where
  | token (chainId : Nat) (tokenAddr : List Nat) (amount : Formula) (sign : Int)
  | gas (chainId : Nat) (amount : Option Formula) (step : Step)
deriving Repr

/-- An evaluated flow (`Required<AssetFlow<bigint>>`); `token = none` is the
`'gas'` marker. -/
structure EvalFlow where
  chainId : Nat
  token : Option (List Nat)
  amount : Nat
  sign : Int
deriving DecidableEq, Repr

/-- The per-step part of `collectFlowFormulas` (quote.ts lines 82-119): one
gas flow (its amount filled from `SpendsEstimatedGas` when present), one
`-1` token flow per `SpendsERC20` entry, one `+1` token flow per step
`ERC20` payment; a payment with nonzero `estimatedDelaySeconds` aborts. -/
def collectStepFlows (s : Step) : Except String (List FlowFormula) := do
  let pays ← s.payments.mapM (fun p =>
    if p.estimatedDelaySeconds ≠ 0 then
      .error "Delayed payment not supported"
    else
      .ok (FlowFormula.token p.token.chainId p.token.address p.amountFormula 1))
  .ok (FlowFormula.gas s.target.chainId s.attributes.SpendsEstimatedGas s ::
    (s.attributes.SpendsERC20.map (fun a =>
      FlowFormula.token a.token.chainId a.token.address a.amountFormula (-1)) ++ pays))

/-- `collectFlowFormulas` (quote.ts lines 79-136): step flows in step order,
then the plan-level `ERC20` payments as `+1` token flows, with the same
delayed-payment check. -/
def collectFlowFormulasF (order : ResolvedOrder) :
    Except String (List FlowFormula) := do
  let stepFlows ← order.steps.mapM collectStepFlows
  let planPays ← order.payments.mapM (fun p =>
    if p.estimatedDelaySeconds ≠ 0 then
      .error "Delayed payment not supported"
    else
      .ok (FlowFormula.token p.token.chainId p.token.address p.amountFormula 1))
  .ok (stepFlows.flatten ++ planPays)

def isPricingRole (r : VariableRole) : Bool :=
  match r with
  | .Pricing => true
  | _ => false

/-- `collectPricingVars` (quote.ts lines 35-43). -/
def pricingVars (order : ResolvedOrder) : List Nat :=
  (List.range order.varRoles.length).filter
    (fun i => (order.varRoles.get? i).elim false isPricingRole)

/-- `buildCallData` + `simulateCalls` for a gas flow without an explicit
formula (`envSimulateCall`, env.ts lines 120-137): the step's arguments are
resolved through the env (mutating it), the call data is assembled, and the
simulation outcome `(gasUsed, success?)` is supplied by the oracle
`simOracle`. -/
def envSimulateCallF (ctx : Ctx) (simOracle : Step → Nat × Bool) (fuel : Nat)
    (st : EnvState) (s : Step) : Except String (Nat × Bool) × EnvState :=
  let a := goArgs (fun st' k => getF ctx fuel st' k) s.arguments st
  match a.err? with
  | some e => (.error e, a.st)
  | none =>
    match abiEncodeFunctionCall s.selector a.vals with
    | .error e => (.error e, a.st)
    | .ok _ => (.ok (simOracle s), a.st)

/-- `computeFlowAmounts` (quote.ts lines 138-164): evaluate each flow in
order, threading the env; a gas flow with no formula is simulated and must
succeed. -/
def computeFlowAmountsF (ctx : Ctx) (simOracle : Step → Nat × Bool)
    (fuel : Nat) (st : EnvState) :
    List FlowFormula → Except String (List EvalFlow × EnvState)
  | [] => .ok ([], st)
  | .token chainId addr amount sign :: rest =>
    match envEvalF ctx fuel st amount with
    | (.error e, _) => .error e
    | (.ok v, st') =>
      match computeFlowAmountsF ctx simOracle fuel st' rest with
      | .error e => .error e
      | .ok (fs, st'') => .ok (⟨chainId, some addr, v, sign⟩ :: fs, st'')
  | .gas chainId (some f) _ :: rest =>
    match envEvalF ctx fuel st f with
    | (.error e, _) => .error e
    | (.ok v, st') =>
      match computeFlowAmountsF ctx simOracle fuel st' rest with
      | .error e => .error e
      | .ok (fs, st'') => .ok (⟨chainId, none, v, -1⟩ :: fs, st'')
  | .gas chainId none s :: rest =>
    match envSimulateCallF ctx simOracle fuel st s with
    | (.error e, _) => .error e
    | (.ok (gasUsed, status), st') =>
      if status then
        match computeFlowAmountsF ctx simOracle fuel st' rest with
        | .error e => .error e
        | .ok (fs, st'') => .ok (⟨chainId, none, gasUsed, -1⟩ :: fs, st'')
      else .error "Gas simulation failed"

/-- The price oracles of the context (`getTokenPriceUsd`,
`getGasPriceUsd`). -/
structure PriceCtx where
  getTokenPriceUsd : List Nat → Nat → Int
  getGasPriceUsd : Nat → Int

/-- The price applied to a flow (quote.ts lines 52-54). -/
def priceOf (pc : PriceCtx) (f : EvalFlow) : Int :=
  match f.token with
  | none => pc.getGasPriceUsd f.chainId
  | some t => pc.getTokenPriceUsd t f.chainId

/-- `computePnLUsd` (quote.ts lines 45-60): `pnl += amount * sign * price`
over the flows. -/
def computePnLUsd (pc : PriceCtx) (flows : List EvalFlow) : Int :=
  flows.foldl (fun pnl f => pnl + (f.amount : Int) * f.sign * priceOf pc f) 0

/-- `quote` (quote.ts lines 11-33): collect flow formulas, reject pricing
variables, evaluate the flows on a fresh env, and gate on `pnl ≥ 0`. -/
def quoteF (ctx : Ctx) (pc : PriceCtx) (simOracle : Step → Nat × Bool)
    (fuel : Nat) (order : ResolvedOrder) :
    Except String (EnvState × List EvalFlow) :=
  match collectFlowFormulasF order with
  | .error e => .error e
  | .ok ffs =>
    if pricingVars order ≠ [] then .error "Pricing variables not supported"
    else
      match computeFlowAmountsF ctx simOracle fuel (initEnv order.varRoles) ffs with
      | .error e => .error e
      | .ok (fs, env') =>
        if computePnLUsd pc fs < 0 then .error "Negative PnL"
        else .ok (env', fs)

theorem foldl_add_map_sum (g : α → Int) (l : List α) (a : Int) :
    l.foldl (fun acc x => acc + g x) a = a + (l.map g).sum := by
  induction l generalizing a with
  | nil => simp
  | cons x xs ih => simp [ih, add_assoc]

/-- C9 — PnL gate.  When the flows of a plan evaluate successfully, the
quoted PnL is `Σ amount · sign · price` over all collected flows — gas flows
priced with `ctx.getGasPriceUsd(chainId)` and token flows with
`ctx.getTokenPriceUsd` — and `quote` throws `Negative PnL` exactly when that
sum is negative, returning the populated env and flows otherwise. -/
theorem C9_pnl_gate (ctx : Ctx) (pc : PriceCtx) (simOracle : Step → Nat × Bool)
    (fuel : Nat) (order : ResolvedOrder) (ffs : List FlowFormula)
    (fs : List EvalFlow) (env' : EnvState)
    (hc : collectFlowFormulasF order = .ok ffs)
    (hp : pricingVars order = [])
    (ha : computeFlowAmountsF ctx simOracle fuel (initEnv order.varRoles) ffs =
      .ok (fs, env')) :
    computePnLUsd pc fs =
      (fs.map (fun f => (f.amount : Int) * f.sign * priceOf pc f)).sum ∧
    (computePnLUsd pc fs < 0 →
      quoteF ctx pc simOracle fuel order = .error "Negative PnL") ∧
    (0 ≤ computePnLUsd pc fs →
      quoteF ctx pc simOracle fuel order = .ok (env', fs)) := by
  refine ⟨?_, ?_, ?_⟩
  · simpa using foldl_add_map_sum (fun f => (f.amount : Int) * f.sign * priceOf pc f) fs 0
  · intro hneg
    unfold quoteF
    rw [hc]
    simp only [hp, ha]
    rw [if_neg (by simp), if_pos hneg]
  · intro hpos
    unfold quoteF
    rw [hc]
    simp only [hp, ha]
    rw [if_neg (by simp), if_neg (by omega)]

/-- The S4 plan with inflow amount `n`: one step spending 1,000,000 of a
token (estimated gas 0), one step-level `ERC20` payment of `n` of the same
token. -/
def c9Order (n : Nat) : ResolvedOrder :=
  { steps := [{ target := ⟨[0x01], 5⟩
                selector := [1, 2, 3, 4]
                arguments := []
                attributes :=
                  { SpendsERC20 :=
                      [⟨⟨[0x77], 5⟩, .Constant 1000000, ⟨[0x01], 5⟩, ⟨[0x02], 5⟩⟩]
                    SpendsEstimatedGas := some (.Constant 0)
                    RevertPolicy := []
                    WithTimestamp := none
                    WithBlockNumber := none
                    WithEffectiveGasPrice := none }
                payments := [⟨⟨[0x77], 5⟩, ⟨[0x03], 5⟩, .Constant n, 0, 0⟩] }]
    varRoles := []
    payments := [] }

def c9Ctx : Ctx := ⟨0, fun _ => [], fun _ => []⟩

def c9Prices : PriceCtx := ⟨fun _ _ => 2, fun _ => 7⟩

/-- Witness for C9, spec scenario S4: with token price 2 USD/unit, outflow
1,000,000 against inflow 1,000,001 gives PnL +2 and the quote is accepted;
inflow 999,999 gives PnL −2 and the quote is rejected with `Negative PnL`. -/
theorem C9_pnl_gate_witness :
    quoteF c9Ctx c9Prices (fun _ => (0, true)) 1 (c9Order 1000001) =
      .ok (initEnv [],
        [⟨5, none, 0, -1⟩, ⟨5, some [0x77], 1000000, -1⟩,
         ⟨5, some [0x77], 1000001, 1⟩]) ∧
    quoteF c9Ctx c9Prices (fun _ => (0, true)) 1 (c9Order 999999) =
      .error "Negative PnL" := by
  constructor
  · exact (C9_pnl_gate c9Ctx c9Prices (fun _ => (0, true)) 1 (c9Order 1000001)
      _ _ _ rfl rfl rfl).2.2 (by decide)
  · exact (C9_pnl_gate c9Ctx c9Prices (fun _ => (0, true)) 1 (c9Order 999999)
      _ _ _ rfl rfl rfl).2.1 (by decide)

/-! ## Dependency invalidation (C6) -/

/-- `j` transitively depends on `i` through `Query` variable arguments:
there is a nonempty chain of `queryDeps` edges from `j` to `i`. -/
inductive DependsOn (roles : List VariableRole) : Nat → Nat → Prop where
  | direct {j i : Nat} : i ∈ queryDeps roles j → DependsOn roles j i
  | step {j k i : Nat} : k ∈ queryDeps roles j → DependsOn roles k i →
      DependsOn roles j i

theorem writeSlot_roles (st : EnvState) (i : Nat) (v : Except String AbiEncodedValue) :
    (writeSlot st i v).roles = st.roles := rfl

theorem writeSlot_cache_same (st : EnvState) (i : Nat)
    (v : Except String AbiEncodedValue) :
    (writeSlot st i v).cache i = ⟨some v, st.tick⟩ := by
  simp [writeSlot]

theorem writeSlot_cache_other (st : EnvState) (i k : Nat)
    (v : Except String AbiEncodedValue) (h : k ≠ i) :
    (writeSlot st i v).cache k = st.cache k := by
  simp [writeSlot, h]

theorem setE_ok (st : EnvState) (i : Nat) (v : AbiEncodedValue) (st' : EnvState)
    (h : setE st i v = .ok st') : st' = writeSlot st i (.ok v) := by
  unfold setE at h
  match hrole : st.roles.get? i with
  | some .Pricing | some .TxOutput | some (.Witness _ _ _) =>
    rw [hrole] at h
    exact (Except.ok.inj h).symm
  | some .PaymentChain | some (.PaymentRecipient _) | some (.Query _ _ _ _)
  | some .QueryEvents | none =>
    rw [hrole] at h
    exact absurd h (by simp)

/-- C6 — Set invalidates dependents.  On an environment whose slot ticks are
all below the counter (true of every reachable environment), after a
successful `set(i, v)` every variable `j` transitively depending on `i`
through `Query` arguments is not fresh — at any recursion fuel — so the next
`get(j)` takes the recompute branch and `j` appears in its recompute log.
The slot-freshness definition itself (value present, and recursively every
dependency fresh with tick ≤ this slot's tick) is the definition of
`isFreshF`.  The hypothesis `i ∉ queryDeps st.roles i` rules out a
self-dependency of `i`, on which the source's recursion would not
terminate. -/
theorem C6_set_invalidates_dependents (st : EnvState) (i j : Nat)
    (v : AbiEncodedValue) (st' : EnvState)
    (hinv : ∀ k, (st.cache k).tick < st.tick)
    (hset : setE st i v = .ok st')
    (hself : i ∉ queryDeps st.roles i)
    (hdep : DependsOn st.roles j i) :
    (∀ fuel, isFreshF st' fuel j = false) ∧
    isFresh st' j = false ∧
    (∀ (ctx : Ctx) (fuel : Nat), j ∈ (getF ctx (fuel + 1) st' j).log) := by
  obtain rfl := setE_ok st i v st' hset
  have hfresh : ∀ fuel, isFreshF (writeSlot st i (.ok v)) fuel j = false := by
    induction hdep with
    | @direct j i hij =>
      intro fuel
      match fuel with
      | 0 => rfl
      | f + 1 =>
        have hji : j ≠ i := fun h => hself (h ▸ hij)
        have hdeps : queryDeps (writeSlot st i (.ok v)).roles j = queryDeps st.roles j :=
          rfl
        have hmem : i ∈ queryDeps (writeSlot st i (.ok v)).roles j := hdeps ▸ hij
        have hticki : ((writeSlot st i (.ok v)).cache i).tick = st.tick := by
          rw [writeSlot_cache_same]
        have htickj : ((writeSlot st i (.ok v)).cache j).tick = (st.cache j).tick := by
          rw [writeSlot_cache_other st i j _ hji]
        have hfail :
            (decide (((writeSlot st i (.ok v)).cache i).tick ≤
              ((writeSlot st i (.ok v)).cache j).tick) &&
             isFreshF (writeSlot st i (.ok v)) f i) = false := by
          rw [hticki, htickj]
          have := hinv j
          simp only [Bool.and_eq_false_iff]
          left
          simpa using by omega
        have hall : ((queryDeps (writeSlot st i (.ok v)).roles j).all (fun d =>
            decide (((writeSlot st i (.ok v)).cache d).tick ≤
              ((writeSlot st i (.ok v)).cache j).tick) &&
            isFreshF (writeSlot st i (.ok v)) f d)) = false := by
          rw [List.all_eq_false]
          exact ⟨i, hmem, by simp [hfail]⟩
        simp [isFreshF, hall]
    | @step j k i hkj hki ih =>
      intro fuel
      match fuel with
      | 0 => rfl
      | f + 1 =>
        have hmem : k ∈ queryDeps (writeSlot st i (.ok v)).roles j := hkj
        have hall : ((queryDeps (writeSlot st i (.ok v)).roles j).all (fun d =>
            decide (((writeSlot st i (.ok v)).cache d).tick ≤
              ((writeSlot st i (.ok v)).cache j).tick) &&
            isFreshF (writeSlot st i (.ok v)) f d)) = false := by
          rw [List.all_eq_false]
          exact ⟨k, hmem, by simp [ih hself hset f]⟩
        simp [isFreshF, hall]
  refine ⟨hfresh, hfresh _, ?_⟩
  intro ctx fuel
  have hnf : isFresh (writeSlot st i (.ok v)) j = false := hfresh _
  unfold getF
  rw [if_neg (by simp [hnf])]
  match hrole : (writeSlot st i (.ok v)).roles.get? j with
  | some .PaymentChain | some (.PaymentRecipient _) | some .QueryEvents
  | some .Pricing | some .TxOutput | some (.Witness _ _ _) | none =>
    simp
  | some (.Query _ _ args _) =>
    simp

/-- Roles for the C6 witness: variable 0 is a settable `TxOutput`, variable 1
is a `Query` whose single argument is variable 0. -/
def c6Roles : List VariableRole :=
  [.TxOutput, .Query ⟨[0x0a], 1⟩ [1, 2, 3, 4] [.Variable 0] 0]

/-- The environment after `set(0, Static 0x…01)` on a fresh env. -/
def c6St : EnvState := writeSlot (initEnv c6Roles) 0 (.ok ⟨.Static, word32 1⟩)

/-- Witness for C6: after setting variable 0, the dependent query variable 1
is not fresh and the next `get(1)` recomputes it. -/
theorem C6_set_invalidates_dependents_witness :
    isFresh c6St 1 = false ∧
    1 ∈ (getF ⟨0, fun _ => [], fun _ => []⟩ 3 c6St 1).log := by
  have h := C6_set_invalidates_dependents (initEnv c6Roles) 0 1
    ⟨.Static, word32 1⟩ c6St (fun k => by simp [initEnv]) (by rfl) (by decide)
    (.direct (by decide))
  exact ⟨h.2.1, h.2.2 ⟨0, fun _ => [], fun _ => []⟩ 2⟩

/-! ## Freshness lemmas for C7

Ticks give the well-foundedness that the source's acyclicity comment
promises: on any environment whose present slots carry distinct ticks in
`[0, tick)`, a chain of fresh dependencies has strictly decreasing ticks, so
the fueled `isFreshF` stabilises once the fuel exceeds the counter. -/

/-- The tick invariants maintained by every environment operation: the
counter is nonnegative, present slots have ticks in `[0, tick)`, and
distinct present slots have distinct ticks. -/
structure EnvInv (st : EnvState) : Prop where
  tick_nonneg : 0 ≤ st.tick
  present_lt : ∀ j, ((st.cache j).value?).isSome = true →
    0 ≤ (st.cache j).tick ∧ (st.cache j).tick < st.tick
  distinct : ∀ j k, ((st.cache j).value?).isSome = true →
    ((st.cache k).value?).isSome = true → j ≠ k →
    (st.cache j).tick ≠ (st.cache k).tick

/-- The dependency graph induced by `Query` arguments is acyclic (the
resolver's obligation, env.ts line 6). -/
def Acyclic (roles : List VariableRole) : Prop :=
  ∀ k, ¬ DependsOn roles k k

theorem no_depends_of_no_deps {roles : List VariableRole}
    (h : ∀ j, queryDeps roles j = []) {k i : Nat} :
    ¬ DependsOn roles k i := by
  intro hk
  induction hk with
  | direct hm => rw [h] at hm; exact absurd hm (List.not_mem_nil _)
  | step hm _ _ => rw [h] at hm; exact absurd hm (List.not_mem_nil _)

theorem acyclic_of_no_deps (roles : List VariableRole)
    (h : ∀ j, queryDeps roles j = []) : Acyclic roles :=
  fun _ => no_depends_of_no_deps h

theorem DependsOn.trans' {roles : List VariableRole} {j k i : Nat}
    (h₁ : DependsOn roles j k) (h₂ : DependsOn roles k i) :
    DependsOn roles j i := by
  induction h₁ with
  | direct hm => exact .step hm h₂
  | step hm _ ih => exact .step hm (ih h₂)

theorem isFreshF_isSome {st : EnvState} {f j : Nat}
    (h : isFreshF st (f + 1) j = true) :
    ((st.cache j).value?).isSome = true := by
  simp only [isFreshF, Bool.and_eq_true] at h
  exact h.1

theorem isFreshF_dep {st : EnvState} {f j d : Nat}
    (h : isFreshF st (f + 1) j = true) (hd : d ∈ queryDeps st.roles j) :
    (st.cache d).tick ≤ (st.cache j).tick ∧ isFreshF st f d = true := by
  simp only [isFreshF, Bool.and_eq_true, List.all_eq_true] at h
  have := h.2 d hd
  simp only [Bool.and_eq_true, decide_eq_true_eq] at this
  exact this

theorem isFreshF_intro {st : EnvState} {f j : Nat}
    (h1 : ((st.cache j).value?).isSome = true)
    (h2 : ∀ d ∈ queryDeps st.roles j,
      (st.cache d).tick ≤ (st.cache j).tick ∧ isFreshF st f d = true) :
    isFreshF st (f + 1) j = true := by
  simp only [isFreshF, Bool.and_eq_true, List.all_eq_true]
  refine ⟨h1, fun d hd => ?_⟩
  simp only [Bool.and_eq_true, decide_eq_true_eq]
  exact h2 d hd

theorem isFreshF_selfloop (st : EnvState) (j : Nat)
    (hj : j ∈ queryDeps st.roles j) : ∀ f, isFreshF st f j = false := by
  intro f
  induction f with
  | zero => rfl
  | succ f ih =>
    cases h : isFreshF st (f + 1) j with
    | false => rfl
    | true => exact absurd (isFreshF_dep h hj).2 (by simp [ih])

theorem isFreshF_mono_succ (st : EnvState) :
    ∀ f j, isFreshF st f j = true → isFreshF st (f + 1) j = true := by
  intro f
  induction f with
  | zero => intro j h; exact absurd h (by simp [isFreshF])
  | succ f ih =>
    intro j h
    exact isFreshF_intro (isFreshF_isSome h)
      (fun d hd => ⟨(isFreshF_dep h hd).1, ih d (isFreshF_dep h hd).2⟩)

theorem isFreshF_mono (st : EnvState) {f g : Nat} (hfg : f ≤ g) :
    ∀ j, isFreshF st f j = true → isFreshF st g j = true := by
  induction g with
  | zero =>
    intro j h
    have : f = 0 := by omega
    subst this
    exact h
  | succ g ih =>
    intro j h
    rcases Nat.lt_or_ge f (g + 1) with hlt | hge
    · exact isFreshF_mono_succ st g j (ih (by omega) j h)
    · have : f = g + 1 := by omega
      subst this
      exact h

/-- Fuel lift: on an invariant-satisfying environment a true freshness
verdict holds at every fuel above the slot's own tick, because fresh
dependency chains have strictly decreasing ticks. -/
theorem isFreshF_fuel_lift (st : EnvState) (hInv : EnvInv st) :
    ∀ (n j : Nat), (st.cache j).tick.toNat ≤ n →
      ∀ f, isFreshF st f j = true →
        ∀ g, (st.cache j).tick.toNat + 1 ≤ g → isFreshF st g j = true := by
  intro n
  induction n with
  | zero =>
    intro j hn f hf g hg
    match f, g, hf, hg with
    | 0, _, hf, _ => exact absurd hf (by simp [isFreshF])
    | _ + 1, 0, _, hg => omega
    | f + 1, g + 1, hf, hg =>
      refine isFreshF_intro (isFreshF_isSome hf) (fun d hd => ?_)
      exfalso
      have hdep := isFreshF_dep hf hd
      have hdj : d ≠ j := by
        intro hdj
        subst hdj
        exact absurd hdep.2 (by simp [isFreshF_selfloop st d hd])
      match f, hdep.2 with
      | 0, h2 => exact absurd h2 (by simp [isFreshF])
      | f' + 1, h2 =>
        have hds : ((st.cache d).value?).isSome = true := isFreshF_isSome h2
        have hjs : ((st.cache j).value?).isSome = true := isFreshF_isSome hf
        have h1 := hInv.present_lt d hds
        have h2' := hInv.present_lt j hjs
        have hne := hInv.distinct d j hds hjs hdj
        have hd1 := hdep.1
        omega
  | succ n ih =>
    intro j hn f hf g hg
    match f, g, hf, hg with
    | 0, _, hf, _ => exact absurd hf (by simp [isFreshF])
    | _ + 1, 0, _, hg => omega
    | f + 1, g + 1, hf, hg =>
      refine isFreshF_intro (isFreshF_isSome hf) (fun d hd => ?_)
      have hdep := isFreshF_dep hf hd
      have hdj : d ≠ j := by
        intro hdj
        subst hdj
        exact absurd hdep.2 (by simp [isFreshF_selfloop st d hd])
      refine ⟨hdep.1, ?_⟩
      match f, hdep.2 with
      | 0, h2 => exact absurd h2 (by simp [isFreshF])
      | f' + 1, h2 =>
        have hds : ((st.cache d).value?).isSome = true := isFreshF_isSome h2
        have hjs : ((st.cache j).value?).isSome = true := isFreshF_isSome hf
        have hd1 := hInv.present_lt d hds
        have hj1 := hInv.present_lt j hjs
        have hne := hInv.distinct d j hds hjs hdj
        have hdn : (st.cache d).tick.toNat ≤ n := by omega
        exact ih d hdn (f' + 1) h2 g (by omega)

theorem isFresh_of_freshF {st : EnvState} (hInv : EnvInv st) {f j : Nat}
    (h : isFreshF st f j = true) : isFresh st j = true := by
  match f, h with
  | 0, h => exact absurd h (by simp [isFreshF])
  | f + 1, h =>
    have hjs := isFreshF_isSome h
    have hj := hInv.present_lt j hjs
    have hc := hInv.tick_nonneg
    exact isFreshF_fuel_lift st hInv (st.cache j).tick.toNat j le_rfl (f + 1) h
      (freshFuel st) (by simp only [freshFuel]; omega)

theorem isFresh_dep {st : EnvState} (hInv : EnvInv st) {j d : Nat}
    (hj : isFresh st j = true) (hd : d ∈ queryDeps st.roles j) :
    isFresh st d = true := by
  have hj' : isFreshF st (st.tick.toNat + 1) j = true := hj
  exact isFresh_of_freshF hInv (isFreshF_dep hj' hd).2

theorem isFresh_depends {st : EnvState} (hInv : EnvInv st) {j k : Nat}
    (hdep : DependsOn st.roles j k) (hj : isFresh st j = true) :
    isFresh st k = true := by
  induction hdep with
  | direct hm => exact isFresh_dep hInv hj hm
  | step hm _ ih => exact ih (isFresh_dep hInv hj hm)

theorem list_all_congr {α : Type _} {l : List α} {f g : α → Bool}
    (h : ∀ x ∈ l, f x = g x) : l.all f = l.all g := by
  induction l with
  | nil => rfl
  | cons a l ih =>
    simp only [List.all_cons, h a (by simp)]
    rw [ih (fun x hx => h x (by simp [hx]))]

/-- Freshness only reads the cache entries of the slot itself and its
transitive dependencies, so it is unchanged when those entries are. -/
theorem isFreshF_congr (st₁ st₂ : EnvState) (hroles : st₂.roles = st₁.roles) :
    ∀ (f j : Nat),
      (∀ k, (k = j ∨ DependsOn st₁.roles j k) → st₂.cache k = st₁.cache k) →
      isFreshF st₂ f j = isFreshF st₁ f j := by
  intro f
  induction f with
  | zero => intro j _; rfl
  | succ f ih =>
    intro j hc
    have hcj : st₂.cache j = st₁.cache j := hc j (Or.inl rfl)
    have hdeps : queryDeps st₂.roles j = queryDeps st₁.roles j := by
      rw [hroles]
    simp only [isFreshF, hcj, hdeps]
    congr 1
    refine list_all_congr (fun d hd => ?_)
    have hcd : st₂.cache d = st₁.cache d := hc d (Or.inr (.direct hd))
    rw [hcd, ih d (fun k hk => ?_)]
    rcases hk with rfl | hk
    · exact hc k (Or.inr (.direct hd))
    · exact hc k (Or.inr (.step hd hk))

theorem writeSlot_tick (st : EnvState) (i : Nat)
    (v : Except String AbiEncodedValue) :
    (writeSlot st i v).tick = st.tick + 1 := rfl

theorem writeSlot_cache_same_tick (st : EnvState) (i : Nat)
    (v : Except String AbiEncodedValue) :
    ((writeSlot st i v).cache i).tick = st.tick := by
  rw [writeSlot_cache_same]

theorem writeSlot_cache_same_val (st : EnvState) (i : Nat)
    (v : Except String AbiEncodedValue) :
    ((writeSlot st i v).cache i).value? = some v := by
  rw [writeSlot_cache_same]

theorem EnvInv_writeSlot {st : EnvState} (hInv : EnvInv st) (i : Nat)
    (v : Except String AbiEncodedValue) : EnvInv (writeSlot st i v) := by
  have hc := hInv.tick_nonneg
  refine ⟨by rw [writeSlot_tick]; omega, ?_, ?_⟩
  · intro j hj
    by_cases hji : j = i
    · rw [hji, writeSlot_cache_same_tick, writeSlot_tick]
      exact ⟨hc, by omega⟩
    · rw [writeSlot_cache_other st i j v hji] at hj ⊢
      rw [writeSlot_tick]
      have := hInv.present_lt j hj
      exact ⟨this.1, by omega⟩
  · intro j k hj hk hjk
    by_cases hji : j = i
    · by_cases hki : k = i
      · exact absurd (hji.trans hki.symm) hjk
      · rw [writeSlot_cache_other st i k v hki] at hk ⊢
        rw [hji, writeSlot_cache_same_tick]
        have := hInv.present_lt k hk
        omega
    · by_cases hki : k = i
      · rw [writeSlot_cache_other st i j v hji] at hj ⊢
        rw [hki, writeSlot_cache_same_tick]
        have := hInv.present_lt j hj
        omega
      · rw [writeSlot_cache_other st i j v hji] at hj ⊢
        rw [writeSlot_cache_other st i k v hki] at hk ⊢
        exact hInv.distinct j k hj hk hjk

theorem option_eq_some_getD {α : Type _} {o : Option α} (h : o.isSome = true)
    (d : α) : o = some (o.getD d) := by
  cases o with
  | none => simp at h
  | some a => rfl

/-! ## Get/recompute preservation lemmas (C7) -/

/-- The variable indices among an argument list, in order. -/
def argVarIdxs (args : List Argument) : List Nat :=
  args.filterMap (fun a =>
    match a with
    | .Variable v => some v
    | .AbiEncodedValue _ => none)

theorem queryDeps_query {roles : List VariableRole} {i : Nat} {t : Account}
    {s : List Nat} {args : List Argument} {b : Nat}
    (h : roles.get? i = some (.Query t s args b)) :
    queryDeps roles i = argVarIdxs args := by
  unfold queryDeps
  rw [h]
  rfl

theorem argVarIdxs_cons_var (v : Nat) (rest : List Argument) :
    argVarIdxs (.Variable v :: rest) = v :: argVarIdxs rest := rfl

theorem argVarIdxs_cons_lit (w : AbiEncodedValue) (rest : List Argument) :
    argVarIdxs (.AbiEncodedValue w :: rest) = argVarIdxs rest := rfl

/-- What one `get` guarantees: roles and counter monotonicity, invariant
preservation, untouched-and-still-fresh slots, freshness of the requested
slot on a completed run with its value cached, and a recompute log confined
to the slot and its transitive dependencies. -/
structure GetGood (st : EnvState) (i : Nat) (r : GetRes) : Prop where
  roles_eq : r.st.roles = st.roles
  tick_mono : st.tick ≤ r.st.tick
  inv : EnvInv st → EnvInv r.st
  fresh_pres : EnvInv st → ∀ j, isFresh st j = true →
    r.st.cache j = st.cache j ∧ isFresh r.st j = true
  established : EnvInv st → Acyclic st.roles → r.ok = true →
    isFresh r.st i = true ∧ (r.st.cache i).value? = some r.val
  log_reach : ∀ k, k ∈ r.log → k = i ∨ DependsOn st.roles i k
  count_one : isFresh st i = false → Acyclic st.roles → r.ok = true →
    r.log.count i = 1

/-- The same guarantees for an argument-list resolution. -/
structure ArgsGood (st : EnvState) (args : List Argument) (a : ArgsRes) : Prop where
  roles_eq : a.st.roles = st.roles
  tick_mono : st.tick ≤ a.st.tick
  inv : EnvInv st → EnvInv a.st
  fresh_pres : EnvInv st → ∀ j, isFresh st j = true →
    a.st.cache j = st.cache j ∧ isFresh a.st j = true
  established : EnvInv st → Acyclic st.roles → a.ok = true →
    ∀ d ∈ argVarIdxs args, isFresh a.st d = true
  log_reach : ∀ k, k ∈ a.log →
    ∃ d ∈ argVarIdxs args, k = d ∨ DependsOn st.roles d k

/-- A slot stays fresh in a later state whose cache agrees on the slot and
all its transitive dependencies. -/
theorem fresh_of_reach_unchanged {st st' : EnvState} (hInv' : EnvInv st')
    (hroles : st'.roles = st.roles) {j : Nat} (hj : isFresh st j = true)
    (hreach : ∀ k, (k = j ∨ DependsOn st.roles j k) →
      st'.cache k = st.cache k) :
    isFresh st' j = true := by
  have h1 : isFreshF st' (freshFuel st) j = true := by
    rw [isFreshF_congr st st' hroles (freshFuel st) j hreach]
    exact hj
  exact isFresh_of_freshF hInv' h1

theorem goArgs_good (g : EnvState → Nat → GetRes)
    (hg : ∀ st i, GetGood st i (g st i)) :
    ∀ (args : List Argument) (st : EnvState),
      ArgsGood st args (goArgs g args st) := by
  intro args
  induction args with
  | nil =>
    intro st
    exact ⟨rfl, le_rfl, id, fun _ j hj => ⟨rfl, hj⟩,
      fun _ _ _ d hd => absurd hd (by simp [argVarIdxs]),
      fun k hk => absurd hk (by simp [goArgs])⟩
  | cons arg rest ih =>
    intro st
    cases arg with
    | AbiEncodedValue w =>
      have ht := ih st
      refine ⟨ht.roles_eq, ht.tick_mono, ht.inv, ht.fresh_pres, ?_, ?_⟩
      · intro h1 h2 h3 d hd
        rw [argVarIdxs_cons_lit] at hd
        exact ht.established h1 h2 h3 d hd
      · intro k hk
        obtain ⟨d, hd, hkd⟩ := ht.log_reach k hk
        exact ⟨d, by rw [argVarIdxs_cons_lit]; exact hd, hkd⟩
    | Variable v =>
      have hr := hg st v
      have ht := ih (g st v).st
      have hroles_r := hr.roles_eq
      have hroles_t := ht.roles_eq
      refine ⟨hroles_t.trans hroles_r, le_trans hr.tick_mono ht.tick_mono,
        fun h => ht.inv (hr.inv h), ?_, ?_, ?_⟩
      · intro hInv j hj
        have h1 := hr.fresh_pres hInv j hj
        have h2 := ht.fresh_pres (hr.inv hInv) j h1.2
        exact ⟨h2.1.trans h1.1, h2.2⟩
      · intro hInv hAc hok d hd
        have hok' : (g st v).ok = true ∧ (goArgs g rest (g st v).st).ok = true := by
          have : ((g st v).ok && (goArgs g rest (g st v).st).ok) = true := hok
          simpa using this
        have hAc' : Acyclic (g st v).st.roles := by rw [hroles_r]; exact hAc
        rw [argVarIdxs_cons_var] at hd
        rcases List.mem_cons.mp hd with rfl | hd'
        · have hest := hr.established hInv hAc hok'.1
          exact (ht.fresh_pres (hr.inv hInv) d hest.1).2
        · exact ht.established (hr.inv hInv) hAc' hok'.2 d hd'
      · intro k hk
        rcases List.mem_append.mp hk with hk1 | hk2
        · cases hr.log_reach k hk1 with
          | inl heq =>
            exact ⟨v, by rw [argVarIdxs_cons_var]; exact List.mem_cons_self v _,
              Or.inl heq⟩
          | inr hdep =>
            exact ⟨v, by rw [argVarIdxs_cons_var]; exact List.mem_cons_self v _,
              Or.inr hdep⟩
        · obtain ⟨d, hd, hkd⟩ := ht.log_reach k hk2
          have hmem : d ∈ argVarIdxs (Argument.Variable v :: rest) := by
            rw [argVarIdxs_cons_var]
            exact List.mem_cons_of_mem v hd
          refine ⟨d, hmem, ?_⟩
          rcases hkd with rfl | hdep
          · exact Or.inl rfl
          · exact Or.inr (by rwa [hroles_r] at hdep)

/-- A recompute-and-write of a slot with no dependencies satisfies the `get`
guarantees. -/
theorem GetGood_write_simple {st : EnvState} {i : Nat}
    (hstale : isFresh st i = false)
    (hdeps : queryDeps st.roles i = [])
    (v : Except String AbiEncodedValue) :
    GetGood st i ⟨v, writeSlot st i v, [i], true⟩ := by
  refine ⟨rfl, by rw [writeSlot_tick]; omega,
    fun h => EnvInv_writeSlot h i v, ?_, ?_, ?_, ?_⟩
  · intro hInv j hj
    have hreach : ∀ k, (k = j ∨ DependsOn st.roles j k) →
        (writeSlot st i v).cache k = st.cache k := by
      intro k hk
      have hkfresh : isFresh st k = true := by
        rcases hk with rfl | hk
        · exact hj
        · exact isFresh_depends hInv hk hj
      have hki : k ≠ i := by
        intro he
        rw [he] at hkfresh
        simp [hstale] at hkfresh
      exact writeSlot_cache_other st i k v hki
    exact ⟨hreach j (Or.inl rfl),
      @fresh_of_reach_unchanged st (writeSlot st i v)
        (EnvInv_writeSlot hInv i v) rfl j hj hreach⟩
  · intro hInv _ _
    constructor
    · show isFreshF (writeSlot st i v)
        ((writeSlot st i v).tick.toNat + 1) i = true
      apply isFreshF_intro
      · rw [writeSlot_cache_same_val]
        rfl
      · intro d hd
        have hdeps' : queryDeps (writeSlot st i v).roles i = [] := hdeps
        rw [hdeps'] at hd
        exact absurd hd (List.not_mem_nil d)
    · rw [writeSlot_cache_same_val]
  · intro k hk
    simp only [List.mem_singleton] at hk
    exact Or.inl hk
  · intro _ _ _
    simp

/-- A `Query` recompute — argument resolution followed by the cache write —
satisfies the `get` guarantees. -/
theorem GetGood_write_query {st : EnvState} {i : Nat} {args : List Argument}
    (hstale : isFresh st i = false)
    (hdeps : queryDeps st.roles i = argVarIdxs args)
    {a : ArgsRes} (ha : ArgsGood st args a)
    (v : Except String AbiEncodedValue) :
    GetGood st i ⟨v, writeSlot a.st i v, a.log ++ [i], a.ok⟩ := by
  have hrolesW : (writeSlot a.st i v).roles = st.roles := ha.roles_eq
  refine ⟨hrolesW, ?_, fun h => EnvInv_writeSlot (ha.inv h) i v, ?_, ?_, ?_, ?_⟩
  · have := ha.tick_mono
    rw [writeSlot_tick]
    omega
  · intro hInv j hj
    have hreach : ∀ k, (k = j ∨ DependsOn st.roles j k) →
        (writeSlot a.st i v).cache k = st.cache k := by
      intro k hk
      have hkfresh : isFresh st k = true := by
        rcases hk with rfl | hk
        · exact hj
        · exact isFresh_depends hInv hk hj
      have hki : k ≠ i := by
        intro he
        rw [he] at hkfresh
        simp [hstale] at hkfresh
      rw [writeSlot_cache_other a.st i k v hki]
      exact (ha.fresh_pres hInv k hkfresh).1
    exact ⟨hreach j (Or.inl rfl),
      fresh_of_reach_unchanged (EnvInv_writeSlot (ha.inv hInv) i v)
        hrolesW hj hreach⟩
  · intro hInv hAc hok
    have hInvA := ha.inv hInv
    have hInv' := EnvInv_writeSlot hInvA i v
    have hfreshd := ha.established hInv hAc hok
    constructor
    · show isFreshF (writeSlot a.st i v)
        ((writeSlot a.st i v).tick.toNat + 1) i = true
      apply isFreshF_intro
      · rw [writeSlot_cache_same_val]
        rfl
      · intro d hd
        have hdepsW : queryDeps (writeSlot a.st i v).roles i = argVarIdxs args := by
          have h1 : queryDeps (writeSlot a.st i v).roles i = queryDeps st.roles i := by
            rw [hrolesW]
          rw [h1, hdeps]
        rw [hdepsW] at hd
        have hdq : d ∈ queryDeps st.roles i := hdeps ▸ hd
        have hdi : d ≠ i := by
          intro he
          subst he
          exact hAc d (.direct hdq)
        have hfd : isFresh a.st d = true := hfreshd d hd
        have hpres : ((a.st.cache d).value?).isSome = true := by
          have h' : isFreshF a.st (a.st.tick.toNat + 1) d = true := hfd
          exact isFreshF_isSome h'
        have htickd := hInvA.present_lt d hpres
        have htick0 := hInvA.tick_nonneg
        constructor
        · rw [writeSlot_cache_other a.st i d v hdi, writeSlot_cache_same_tick]
          omega
        · have hreachd : ∀ k, (k = d ∨ DependsOn a.st.roles d k) →
              (writeSlot a.st i v).cache k = a.st.cache k := by
            intro k hk
            have hki : k ≠ i := by
              intro he
              subst he
              rcases hk with he2 | hk
              · exact hdi he2.symm
              · have hk' : DependsOn st.roles d k := ha.roles_eq ▸ hk
                exact hAc k (.step hdq hk')
            exact writeSlot_cache_other a.st i k v hki
          have hW : isFreshF (writeSlot a.st i v) (freshFuel a.st) d = true := by
            rw [isFreshF_congr a.st (writeSlot a.st i v) rfl (freshFuel a.st)
              d hreachd]
            exact hfd
          have hcd : ((writeSlot a.st i v).cache d).tick = (a.st.cache d).tick := by
            rw [writeSlot_cache_other a.st i d v hdi]
          apply isFreshF_fuel_lift (writeSlot a.st i v) hInv'
            ((writeSlot a.st i v).cache d).tick.toNat d le_rfl
            (freshFuel a.st) hW
          rw [hcd, writeSlot_tick]
          omega
    · rw [writeSlot_cache_same_val]
  · intro k hk
    rcases List.mem_append.mp hk with hk1 | hk2
    · obtain ⟨d, hd, hkd⟩ := ha.log_reach k hk1
      have hdq : d ∈ queryDeps st.roles i := hdeps ▸ hd
      rcases hkd with rfl | hdep
      · exact Or.inr (.direct hdq)
      · exact Or.inr (.step hdq hdep)
    · simp only [List.mem_singleton] at hk2
      exact Or.inl hk2
  · intro _ hAc _
    have hnot : i ∉ a.log := by
      intro hmem
      obtain ⟨d, hd, hkd⟩ := ha.log_reach i hmem
      have hdq : d ∈ queryDeps st.roles i := hdeps ▸ hd
      rcases hkd with rfl | hdep
      · exact hAc i (.direct hdq)
      · exact hAc i (.step hdq hdep)
    simp [List.count_append, List.count_eq_zero.mpr hnot]

/-- Every `get` run satisfies the guarantees, at every fuel. -/
theorem getF_good (ctx : Ctx) :
    ∀ (fuel : Nat) (st : EnvState) (i : Nat),
      GetGood st i (getF ctx fuel st i) := by
  intro fuel
  induction fuel with
  | zero =>
    intro st i
    refine ⟨rfl, le_rfl, id, fun _ j hj => ⟨rfl, hj⟩, ?_, ?_, ?_⟩
    · intro _ _ hok
      exact absurd hok (by simp [getF])
    · intro k hk
      exact absurd hk (by simp [getF])
    · intro _ _ hok
      exact absurd hok (by simp [getF])
  | succ fuel ih =>
    intro st i
    by_cases hfr : isFresh st i = true
    · have hred : getF ctx (fuel + 1) st i =
          ⟨((st.cache i).value?).getD (.error "missing value"), st, [], true⟩ := by
        unfold getF
        rw [if_pos hfr]
      rw [hred]
      refine ⟨rfl, le_rfl, id, fun _ j hj => ⟨rfl, hj⟩, ?_, ?_, ?_⟩
      · intro hInv _ _
        have hsome : ((st.cache i).value?).isSome = true := by
          have h' : isFreshF st (st.tick.toNat + 1) i = true := hfr
          exact isFreshF_isSome h'
        exact ⟨hfr, option_eq_some_getD hsome _⟩
      · intro k hk
        exact absurd hk (List.not_mem_nil k)
      · intro hst _ _
        exact absurd hfr (by simp [hst])
    · have hstale : isFresh st i = false := by
        cases h : isFresh st i with
        | true => exact absurd h hfr
        | false => rfl
      match hrole : st.roles.get? i with
      | some .PaymentChain =>
        have hred : getF ctx (fuel + 1) st i =
            ⟨abiEncodeUint ctx.paymentChain,
             writeSlot st i (abiEncodeUint ctx.paymentChain), [i], true⟩ := by
          unfold getF
          rw [if_neg hfr, hrole]
        rw [hred]
        exact GetGood_write_simple hstale (by unfold queryDeps; rw [hrole]) _
      | some (.PaymentRecipient c) =>
        have hred : getF ctx (fuel + 1) st i =
            ⟨abiEncodeAddress (ctx.paymentRecipient c),
             writeSlot st i (abiEncodeAddress (ctx.paymentRecipient c)), [i], true⟩ := by
          unfold getF
          rw [if_neg hfr, hrole]
        rw [hred]
        exact GetGood_write_simple hstale (by unfold queryDeps; rw [hrole]) _
      | some .QueryEvents =>
        have hred : getF ctx (fuel + 1) st i =
            ⟨.error "TODO", writeSlot st i (.error "TODO"), [i], true⟩ := by
          unfold getF
          rw [if_neg hfr, hrole]
        rw [hred]
        exact GetGood_write_simple hstale (by unfold queryDeps; rw [hrole]) _
      | some .Pricing =>
        have hred : getF ctx (fuel + 1) st i =
            ⟨.error "variable not set", writeSlot st i (.error "variable not set"),
             [i], true⟩ := by
          unfold getF
          rw [if_neg hfr, hrole]
        rw [hred]
        exact GetGood_write_simple hstale (by unfold queryDeps; rw [hrole]) _
      | some .TxOutput =>
        have hred : getF ctx (fuel + 1) st i =
            ⟨.error "variable not set", writeSlot st i (.error "variable not set"),
             [i], true⟩ := by
          unfold getF
          rw [if_neg hfr, hrole]
        rw [hred]
        exact GetGood_write_simple hstale (by unfold queryDeps; rw [hrole]) _
      | some (.Witness kind data wvars) =>
        have hred : getF ctx (fuel + 1) st i =
            ⟨.error "variable not set", writeSlot st i (.error "variable not set"),
             [i], true⟩ := by
          unfold getF
          rw [if_neg hfr, hrole]
        rw [hred]
        exact GetGood_write_simple hstale (by unfold queryDeps; rw [hrole]) _
      | none =>
        have hred : getF ctx (fuel + 1) st i =
            ⟨.error "role out of bounds", writeSlot st i (.error "role out of bounds"),
             [i], true⟩ := by
          unfold getF
          rw [if_neg hfr, hrole]
        rw [hred]
        exact GetGood_write_simple hstale (by unfold queryDeps; rw [hrole]) _
      | some (.Query t s args b) =>
        have hred : getF ctx (fuel + 1) st i =
            ⟨(match (goArgs (fun st' k => getF ctx fuel st' k) args st).err? with
              | some e => .error e
              | none => decodeAbiWrappedValue (ctx.queryOracle i)),
             writeSlot (goArgs (fun st' k => getF ctx fuel st' k) args st).st i
               (match (goArgs (fun st' k => getF ctx fuel st' k) args st).err? with
                | some e => .error e
                | none => decodeAbiWrappedValue (ctx.queryOracle i)),
             (goArgs (fun st' k => getF ctx fuel st' k) args st).log ++ [i],
             (goArgs (fun st' k => getF ctx fuel st' k) args st).ok⟩ := by
          conv_lhs => rw [getF]
          rw [if_neg hfr, hrole]
        rw [hred]
        exact GetGood_write_query hstale (queryDeps_query hrole)
          (goArgs_good _ ih args st) _

theorem EnvInv_initEnv (roles : List VariableRole) : EnvInv (initEnv roles) := by
  refine ⟨by simp [initEnv], ?_, ?_⟩
  · intro j hj
    simp [initEnv] at hj
  · intro j k hj _ _
    simp [initEnv] at hj

/-- C7 — Get is cached and idempotent.  On an environment satisfying the
tick invariants, with an acyclic dependency graph and a slot `i` that is not
yet fresh, a completed `get(i)` run computes `i` exactly once (its recompute
log contains `i` once), and a second `get(i)` with no intervening mutation
returns the same value, leaves the environment unchanged, and performs no
recompute at all — it is served from the cache. -/
theorem C7_get_cached_idempotent (ctx : Ctx) (fuel : Nat) (st : EnvState)
    (i : Nat) (hInv : EnvInv st) (hAc : Acyclic st.roles)
    (hstale : isFresh st i = false)
    (hok : (getF ctx fuel st i).ok = true) :
    (getF ctx fuel st i).log.count i = 1 ∧
    (∀ fuel', getF ctx (fuel' + 1) (getF ctx fuel st i).st i =
      ⟨(getF ctx fuel st i).val, (getF ctx fuel st i).st, [], true⟩) := by
  have hg := getF_good ctx fuel st i
  have hest := hg.established hInv hAc hok
  refine ⟨hg.count_one hstale hAc hok, fun fuel' => ?_⟩
  conv_lhs => rw [getF]
  rw [if_pos hest.1, hest.2]
  rfl

/-- Roles for the C7 witness: one `Query` variable with no arguments. -/
def c7Roles : List VariableRole := [.Query ⟨[0x0b], 1⟩ [1, 2, 3, 4] [] 0]

/-- Context for the C7 witness: the query's `eth_call` answers with a
dynamic wrapped value. -/
def c7Ctx : Ctx := ⟨0, fun _ => [], fun _ => encodeOuterDynamic (word32 3)⟩

/-- Witness for C7: on a fresh env the first `get(0)` computes variable 0
exactly once, and the second `get(0)` returns the same value from the cache
with an empty recompute log and the environment unchanged. -/
theorem C7_get_cached_idempotent_witness :
    (getF c7Ctx 2 (initEnv c7Roles) 0).log.count 0 = 1 ∧
    getF c7Ctx 1 (getF c7Ctx 2 (initEnv c7Roles) 0).st 0 =
      ⟨(getF c7Ctx 2 (initEnv c7Roles) 0).val,
       (getF c7Ctx 2 (initEnv c7Roles) 0).st, [], true⟩ := by
  have h := C7_get_cached_idempotent c7Ctx 2 (initEnv c7Roles) 0
    (EnvInv_initEnv c7Roles)
    (acyclic_of_no_deps c7Roles (fun j => by cases j <;> rfl))
    (by rfl) (by rfl)
  exact ⟨h.1, h.2 0⟩
